import Mathlib

/-!
Verification development for the media-analyzer job pipeline.

The definitions below are a shallow embedding of:
  * the `claim_analysis_job` SQL function (migration adding `retry_after`),
  * the `Analyzer` worker in `services/analyzer/src/index.ts`
    (`handleJobError`, `processJob`'s pre-checks, `buildPrompt`,
    `storeResult`, `downloadMedia`),
with the job table modelled as a list of job records and timestamps as
naturals.
-/

/-- Media kinds handled by the analyzer (`MediaType` in `providers/types`). -/
inductive MediaType
  | image
  | video
  | audio
deriving DecidableEq

/-- Job status enum of the `analysis_jobs` table. -/
inductive JobStatus
  | pending
  | processing
  | completed
  | failed
deriving DecidableEq

/-- Optional media metadata carried by a job (`media_info`). Sizes and the
duration are in the units the producer wrote (duration in milliseconds). -/
structure MediaInfo where
  mimetype : Option String := none
  size : Option Nat := none
  width : Option Nat := none
  height : Option Nat := none
  duration : Option Nat := none
deriving DecidableEq

/-- One row of the `analysis_jobs` table. -/
structure AnalysisJob where
  id : Nat
  message_id : Nat
  event_id : String
  media_type : MediaType
  media_url : String
  media_info : Option MediaInfo
  organization_id : Option Nat
  status : JobStatus
  attempts : Nat
  last_error : Option String
  retry_after : Option Nat
  created_at : Nat
  started_at : Option Nat
  completed_at : Option Nat
deriving DecidableEq

/-- The `WHERE` clause of `claim_analysis_job`: the row is pending and its
`retry_after` is null or has elapsed. -/
def jobReady (now : Nat) (j : AnalysisJob) : Bool :=
  j.status == JobStatus.pending &&
    (match j.retry_after with
     | none => true
     | some t => decide (t ≤ now))

/-- The field updates `claim_analysis_job` applies to the claimed row:
status := processing, started_at := NOW(), attempts := attempts + 1,
retry_after := NULL. -/
def claimUpdate (now : Nat) (j : AnalysisJob) : AnalysisJob :=
  { j with
    status := JobStatus.processing
    started_at := some now
    attempts := j.attempts + 1
    retry_after := none }

/-- Selection order `ORDER BY created_at ASC LIMIT 1`: of two candidate rows, keep the one
created strictly earlier (ties keep the row seen first). -/
def olderOf (a b : AnalysisJob) : AnalysisJob :=
  if b.created_at < a.created_at then b else a

/-- The `SELECT ... FOR UPDATE SKIP LOCKED` of `claim_analysis_job`:
among rows that are ready and not locked by a concurrent claimant, pick
the oldest by creation time. -/
def claimSelect (now : Nat) (locked : List Nat) (store : List AnalysisJob) :
    Option AnalysisJob :=
  match store.filter (fun j => jobReady now j && !(locked.contains j.id)) with
  | [] => none
  | j :: rest => some (rest.foldl olderOf j)

/-- Function `claim_analysis_job` as a transaction over the job table: selects a row
(skipping locked ones), updates it in place, and returns the updated copy;
when no row qualifies it returns nothing and leaves the table unchanged. -/
def claimWithLocks (now : Nat) (locked : List Nat) (store : List AnalysisJob) :
    Option AnalysisJob × List AnalysisJob :=
  match claimSelect now locked store with
  | none => (none, store)
  | some j =>
      (some (claimUpdate now j),
       store.map (fun r => if r.id = j.id then claimUpdate now r else r))

/-- Function `claim_analysis_job` as invoked by a single claimant with no concurrent
lock holders. -/
def claim_analysis_job (now : Nat) (store : List AnalysisJob) :
    Option AnalysisJob × List AnalysisJob :=
  claimWithLocks now [] store

/-- Analyzer configuration fields used by the job pipeline
(`config` in `services/analyzer/src/config.ts`); `providers` records for
which media kinds `initializeProviders` installed a provider. -/
structure Config where
  maxVideoDurationSec : Nat
  pollIntervalMs : Nat
  maxRetries : Nat
  providers : MediaType → Bool

/-- Method `Analyzer.handleJobError`: recomputes the attempt count from the
in-memory job object (`job.attempts + 1`), marks the job failed when that
count reaches `maxRetries` and pending otherwise, records the error and
clears `started_at`. It does not touch `retry_after`. -/
def handleJobError (cfg : Config) (job : AnalysisJob) (errMsg : String)
    (store : List AnalysisJob) : List AnalysisJob :=
  let newAttempts := job.attempts + 1
  let newStatus :=
    if cfg.maxRetries ≤ newAttempts then JobStatus.failed else JobStatus.pending
  store.map (fun r =>
    if r.id = job.id then
      { r with
        status := newStatus
        attempts := newAttempts
        last_error := some errMsg
        started_at := none }
    else r)

/-- The checks `Analyzer.processJob` performs before any network call:
a missing provider for the job's media kind, then (for video jobs with a
nonzero recorded duration) the duration limit `maxVideoDurationSec`.
`duration` is in milliseconds, compared as `duration / 1000 >
maxVideoDurationSec`, i.e. `1000 * maxVideoDurationSec < duration`. -/
def processJobPrecheckError (cfg : Config) (job : AnalysisJob) :
    Option String :=
  if !(cfg.providers job.media_type) then
    some "No provider configured for media type"
  else if job.media_type = MediaType.video then
    match job.media_info with
    | some mi =>
        match mi.duration with
        | some d =>
            if d ≠ 0 ∧ 1000 * cfg.maxVideoDurationSec < d then
              some "Video duration exceeds limit"
            else none
        | none => none
    | none => none
  else none

/-- One worker cycle along the failure path: claim a job; when the
pre-checks of `processJob` raise, the error is caught by `processNextJob`
and finalized by `handleJobError`. A cycle whose pre-checks pass goes on to
fetch/analyze/store, which the claims using this definition never reach. -/
def workerFailCycle (cfg : Config) (now : Nat) (store : List AnalysisJob) :
    List AnalysisJob :=
  match claim_analysis_job now store with
  | (none, s) => s
  | (some j, s) =>
      match processJobPrecheckError cfg j with
      | some err => handleJobError cfg j err s
      | none => s

/-- Claim a job and finalize it with a (retryable) runtime error `errMsg`,
as `processNextJob` does when `processJob` throws after the pre-checks
(e.g. a media download failure). -/
def claimThenFail (cfg : Config) (now : Nat) (errMsg : String)
    (store : List AnalysisJob) : List AnalysisJob :=
  match claim_analysis_job now store with
  | (none, s) => s
  | (some j, s) => handleJobError cfg j errMsg s

/-- A prompt tier selector: the `prompt_type` column is either `master` or
a media kind. -/
inductive PromptType
  | master
  | media (mt : MediaType)
deriving DecidableEq

/-- One row of the `ai_prompts` table. -/
structure PromptRecord where
  prompt_type : PromptType
  organization_id : Option Nat
  is_active : Bool
  prompt_content : String
deriving DecidableEq

/-- PostgREST `.single()`: yields a row only when the query matched exactly
one row, otherwise an error (which `buildPrompt` discards as null data). -/
def singleRow (rows : List PromptRecord) : Option PromptRecord :=
  match rows with
  | [r] => some r
  | _ => none

/-- One `ai_prompts` query of `buildPrompt`: filter on `prompt_type`,
`organization_id` and `is_active = true`, then `.single()`. -/
def promptQuery (store : List PromptRecord) (pt : PromptType)
    (org : Option Nat) : Option String :=
  (singleRow (store.filter (fun r =>
    r.prompt_type == pt && r.organization_id == org && r.is_active))).map
    (fun r => r.prompt_content)

/-- Push `prompts.push(...)` guarded by the JS truthiness of the fetched
content: null data or an empty string adds nothing. -/
def pushContent (prompts : List String) (c : Option String) : List String :=
  match c with
  | some s => if s = "" then prompts else prompts ++ [s]
  | none => prompts

/-- Join `Array.prototype.join('\n\n')`. -/
def joinSep : List String → String
  | [] => ""
  | [s] => s
  | s :: rest => s ++ "\n\n" ++ joinSep rest

/-- Method `Analyzer.buildPrompt`: master tier, then the media-kind tier, then —
only when `organizationId` is truthy (non-null and nonzero) — the tenant
tier, joined with a blank line. -/
def buildPrompt (store : List PromptRecord) (mt : MediaType)
    (org : Option Nat) : String :=
  let prompts := pushContent [] (promptQuery store PromptType.master none)
  let prompts := pushContent prompts (promptQuery store (PromptType.media mt) none)
  let prompts :=
    match org with
    | some o =>
        if o ≠ 0 then
          pushContent prompts (promptQuery store (PromptType.media mt) (some o))
        else prompts
    | none => prompts
  joinSep prompts

/-- One row of the `media_analysis` table. -/
structure MediaAnalysisRow where
  message_id : Nat
  event_id : String
  media_type : MediaType
  analysis_type : String
  content : String
  provider : String
  model_used : String
  tokens_used : Option Nat
  processing_time_ms : Nat
deriving DecidableEq

/-- The `onConflict: 'event_id,analysis_type'` upsert key. -/
def rowKey (r : MediaAnalysisRow) : String × String :=
  (r.event_id, r.analysis_type)

/-- Supabase `.upsert(..., { onConflict: 'event_id,analysis_type' })` over a
table with a unique index on that key: replace the conflicting row when one
exists, insert otherwise. -/
def upsertAnalysis (tbl : List MediaAnalysisRow) (row : MediaAnalysisRow) :
    List MediaAnalysisRow :=
  if tbl.any (fun r => rowKey r = rowKey row) then
    tbl.map (fun r => if rowKey r = rowKey row then row else r)
  else tbl ++ [row]

/-- What a provider's analyze call returns (`AnalysisResult` in
`providers/types`). -/
structure AnalysisResult where
  content : String
  modelUsed : String
  tokensUsed : Option Nat
  processingTimeMs : Nat
deriving DecidableEq

/-- The analysis kind `Analyzer.storeResult` derives from the media kind:
`transcription` for audio, `description` otherwise. -/
def analysisTypeFor (mt : MediaType) : String :=
  if mt == MediaType.audio then "transcription" else "description"

/-- The `media_analysis` row `Analyzer.storeResult` builds for a job. -/
def resultRowFor (job : AnalysisJob) (result : AnalysisResult)
    (providerName : String) : MediaAnalysisRow :=
  { message_id := job.message_id
    event_id := job.event_id
    media_type := job.media_type
    analysis_type := analysisTypeFor job.media_type
    content := result.content
    provider := providerName
    model_used := result.modelUsed
    tokens_used := result.tokensUsed
    processing_time_ms := result.processingTimeMs }

/-- Method `Analyzer.storeResult`: upsert the derived row into `media_analysis`. -/
def storeResult (job : AnalysisJob) (result : AnalysisResult)
    (providerName : String) (tbl : List MediaAnalysisRow) :
    List MediaAnalysisRow :=
  upsertAnalysis tbl (resultRowFor job result providerName)

/-- Outcome of one HTTP fetch of the media download URL: a 200 with the
body, a non-200 status, or a thrown transport error. -/
inductive FetchResult
  | ok (body : List Nat)
  | httpStatus (code : Nat)
  | netError
deriving DecidableEq

/-- The retry loop of `Analyzer.downloadMedia`, driven by the outcome of
each fetch attempt: a 200 returns the body; a 404 before the last attempt
sleeps and retries; any other status fails at once; a thrown transport
error before the last attempt sleeps and retries; otherwise fail. -/
def downloadGo (resp : Nat → FetchResult) : List Nat → Option (List Nat)
  | [] => none
  | attempt :: rest =>
      match resp attempt with
      | FetchResult.ok b => some b
      | FetchResult.httpStatus c =>
          if c = 404 ∧ attempt < 2 then downloadGo resp rest else none
      | FetchResult.netError =>
          if attempt < 2 then downloadGo resp rest else none

/-- Method `Analyzer.downloadMedia`, its `for (let attempt = 0; attempt < 3; ...)`
loop; `none` is the `null` return the worker turns into a retryable
"Failed to download media" job error. -/
def downloadMedia (resp : Nat → FetchResult) : Option (List Nat) :=
  downloadGo resp (List.range 3)

/-- Run `n` claim transactions one after another against the same job
table (the serialization of `n` concurrent claimants, each of whose
claim transactions is atomic), collecting what each one received. -/
def runClaims (now : Nat) : Nat → List AnalysisJob →
    List (Option AnalysisJob) × List AnalysisJob
  | 0, s => ([], s)
  | n + 1, s =>
      let p := claim_analysis_job now s
      let q := runClaims now n p.2
      (p.1 :: q.1, q.2)

/-- Default analyzer configuration: `maxVideoDurationSec = 300`,
`pollIntervalMs = 5000`, `maxRetries = 3`, a provider installed for every
media kind. -/
def cfg0 : Config :=
  { maxVideoDurationSec := 300
    pollIntervalMs := 5000
    maxRetries := 3
    providers := fun _ => true }

/-- A fresh pending image job, as the producer inserts it. -/
def job0 : AnalysisJob :=
  { id := 1
    message_id := 7
    event_id := "E1"
    media_type := MediaType.image
    media_url := "mxc://srv/med"
    media_info := none
    organization_id := none
    status := JobStatus.pending
    attempts := 0
    last_error := none
    retry_after := none
    created_at := 0
    started_at := none
    completed_at := none }

/-- A fresh pending video job whose recorded duration is 400000 ms. -/
def jobV : AnalysisJob :=
  { job0 with
    id := 2
    media_type := MediaType.video
    media_info := some { duration := some 400000 } }

/-- A completed job: not claimable. -/
def jobDone : AnalysisJob :=
  { job0 with id := 3, status := JobStatus.completed }

theorem foldl_olderOf_mem (l : List AnalysisJob) (a : AnalysisJob) :
    l.foldl olderOf a = a ∨ l.foldl olderOf a ∈ l := by
  induction l generalizing a with
  | nil => left; rfl
  | cons b l ih =>
      simp only [List.foldl_cons]
      rcases ih (olderOf a b) with h | h
      · rw [h]; unfold olderOf; split
        · right; exact List.mem_cons_self b l
        · left; rfl
      · right; exact List.mem_cons_of_mem b h

theorem foldl_olderOf_le (l : List AnalysisJob) (a : AnalysisJob) :
    (l.foldl olderOf a).created_at ≤ a.created_at ∧
      ∀ k ∈ l, (l.foldl olderOf a).created_at ≤ k.created_at := by
  induction l generalizing a with
  | nil => exact ⟨Nat.le_refl _, by simp⟩
  | cons b l ih =>
      simp only [List.foldl_cons]
      obtain ⟨h1, h2⟩ := ih (olderOf a b)
      have hinit : (olderOf a b).created_at ≤ a.created_at := by
        unfold olderOf; split <;> omega
      have hb : (olderOf a b).created_at ≤ b.created_at := by
        unfold olderOf; split <;> omega
      refine ⟨h1.trans hinit, ?_⟩
      intro k hk
      rcases List.mem_cons.mp hk with rfl | hk
      · exact h1.trans hb
      · exact h2 k hk


theorem claimSelect_some_spec (now : Nat) (locked : List Nat)
    (store : List AnalysisJob) (j : AnalysisJob)
    (h : claimSelect now locked store = some j) :
    (j ∈ store ∧ jobReady now j = true ∧ locked.contains j.id = false) ∧
      ∀ k ∈ store, jobReady now k = true → locked.contains k.id = false →
        j.created_at ≤ k.created_at := by
  unfold claimSelect at h
  cases hfl : store.filter
      (fun x => jobReady now x && !(locked.contains x.id)) with
  | nil => rw [hfl] at h; cases h
  | cons a rest =>
      rw [hfl] at h
      have hj : j = rest.foldl olderOf a := (Option.some.inj h).symm
      have hmemfl : j ∈ a :: rest := by
        rcases foldl_olderOf_mem rest a with h' | h'
        · rw [hj, h']; exact List.mem_cons_self a rest
        · rw [hj]; exact List.mem_cons_of_mem a h'
      have hmem : j ∈ store.filter
          (fun x => jobReady now x && !(locked.contains x.id)) :=
        hfl ▸ hmemfl
      have hprop := List.mem_filter.mp hmem
      have hpred : jobReady now j = true ∧ locked.contains j.id = false := by
        have h2 := hprop.2
        simp only [Bool.and_eq_true, Bool.not_eq_true'] at h2
        exact h2
      refine ⟨⟨hprop.1, hpred.1, hpred.2⟩, ?_⟩
      intro k hk hready hnl
      have hkfl : k ∈ a :: rest := by
        rw [← hfl]
        refine List.mem_filter.mpr ⟨hk, ?_⟩
        simp only [Bool.and_eq_true, Bool.not_eq_true']
        exact ⟨hready, hnl⟩
      obtain ⟨h1, h2⟩ := foldl_olderOf_le rest a
      rcases List.mem_cons.mp hkfl with rfl | hkr
      · rw [hj]; exact h1
      · rw [hj]; exact h2 k hkr

theorem filter_nolock (now : Nat) (store : List AnalysisJob) :
    store.filter (fun x => jobReady now x && !(List.contains ([] : List Nat) x.id)) =
      store.filter (jobReady now) := by
  apply List.filter_congr
  intro x _
  simp

theorem claimSelect_eq_none_iff (now : Nat) (locked : List Nat)
    (store : List AnalysisJob) :
    claimSelect now locked store = none ↔
      store.filter (fun x => jobReady now x && !(locked.contains x.id)) = [] := by
  unfold claimSelect
  cases store.filter (fun x => jobReady now x && !(locked.contains x.id)) <;> simp

/-- Claim C1: a single `claim_analysis_job` call returns at most one job
(the result is an `Option`): the oldest pending job whose `retry_after`
is null or elapsed; it marks that row processing, adds one to its attempt
count, stamps `started_at := now` and clears `retry_after`, leaving every
other row unchanged; with no eligible row it returns none and leaves the
table untouched, and with an eligible row it does return a job. -/
theorem claim1_claimNextJob_contract (now : Nat) (store : List AnalysisJob) :
    ((∀ j ∈ store, jobReady now j = false) →
        claim_analysis_job now store = (none, store)) ∧
    (∀ j' s', claim_analysis_job now store = (some j', s') →
        ∃ j, j ∈ store ∧ jobReady now j = true ∧
          (∀ k ∈ store, jobReady now k = true → j.created_at ≤ k.created_at) ∧
          j' = claimUpdate now j ∧
          j'.status = JobStatus.processing ∧
          j'.attempts = j.attempts + 1 ∧
          j'.started_at = some now ∧
          j'.retry_after = none ∧
          s' = store.map (fun r => if r.id = j.id then claimUpdate now r else r) ∧
          (∀ r ∈ store, r.id ≠ j.id → r ∈ s')) ∧
    ((∃ j ∈ store, jobReady now j = true) →
        (claim_analysis_job now store).1.isSome = true) := by
  refine ⟨?_, ?_, ?_⟩
  · intro h
    have hf : store.filter
        (fun x => jobReady now x && !(List.contains ([] : List Nat) x.id)) = [] := by
      apply List.filter_eq_nil_iff.mpr
      intro a ha
      simp [h a ha]
    unfold claim_analysis_job claimWithLocks
    rw [(claimSelect_eq_none_iff now [] store).mpr hf]
  · intro j' s' heq
    unfold claim_analysis_job claimWithLocks at heq
    cases hsel : claimSelect now [] store with
    | none =>
        rw [hsel] at heq
        simp only [Prod.mk.injEq] at heq
        exact absurd heq.1 (by simp)
    | some j =>
        rw [hsel] at heq
        simp only [Prod.mk.injEq] at heq
        obtain ⟨⟨hjm, hjr, _⟩, hmin⟩ := claimSelect_some_spec now [] store j hsel
        have hj' : j' = claimUpdate now j := (Option.some.inj heq.1).symm
        subst hj'
        refine ⟨j, hjm, hjr, ?_, rfl, rfl, rfl, rfl, rfl, heq.2.symm, ?_⟩
        · intro k hk hkr
          exact hmin k hk hkr rfl
        · intro r hr hne
          rw [← heq.2]
          have hfix : (if r.id = j.id then claimUpdate now r else r) = r :=
            if_neg hne
          rw [← hfix]
          exact List.mem_map_of_mem _ hr
  · rintro ⟨j, hj, hready⟩
    unfold claim_analysis_job claimWithLocks
    cases hsel : claimSelect now [] store with
    | some x => rfl
    | none =>
        exfalso
        have hf := (claimSelect_eq_none_iff now [] store).mp hsel
        have hmem : j ∈ store.filter
            (fun x => jobReady now x && !(List.contains ([] : List Nat) x.id)) :=
          List.mem_filter.mpr ⟨hj, by simp [hready]⟩
        rw [hf] at hmem
        cases hmem

/-- Witness for `claim1_claimNextJob_contract`: on a table holding a single
completed job the claim returns none and changes nothing; on a table
holding one fresh pending job it returns a job. -/
theorem claim1_witness :
    claim_analysis_job 0 [jobDone] = (none, [jobDone]) ∧
    (claim_analysis_job 10 [job0]).1.isSome = true :=
  ⟨(claim1_claimNextJob_contract 0 [jobDone]).1 (by decide),
   (claim1_claimNextJob_contract 10 [job0]).2.2 ⟨job0, by decide, by decide⟩⟩

theorem claim_none_of_no_ready (now : Nat) (s : List AnalysisJob)
    (h : s.countP (jobReady now) = 0) :
    claim_analysis_job now s = (none, s) := by
  have hf : s.filter
      (fun x => jobReady now x && !(List.contains ([] : List Nat) x.id)) = [] := by
    apply List.filter_eq_nil_iff.mpr
    intro a ha
    have hna := List.countP_eq_zero.mp h a ha
    have hfalse : jobReady now a = false := by
      cases hb : jobReady now a
      · rfl
      · exact absurd hb hna
    simp [hfalse]
  unfold claim_analysis_job claimWithLocks
  rw [(claimSelect_eq_none_iff now [] s).mpr hf]

theorem runClaims_all_none (now : Nat) (n : Nat) (s : List AnalysisJob)
    (h : s.countP (jobReady now) = 0) :
    (runClaims now n s).1.countP (fun r => r.isSome) = 0 := by
  induction n with
  | zero => rfl
  | succ m ih =>
      show ((claim_analysis_job now s).1 ::
        (runClaims now m (claim_analysis_job now s).2).1).countP
          (fun r => r.isSome) = 0
      rw [claim_none_of_no_ready now s h]
      simpa using ih

/-- Claim C2: against a table with exactly one eligible job, N ≥ 1 claim
transactions (the serialization of N concurrent claimants: each
`claim_analysis_job` transaction is atomic, and `FOR UPDATE SKIP LOCKED`
orders overlapping ones) hand the job to exactly one caller and none to
the other N − 1, so no two callers ever receive the same job; and a
claimant that finds the eligible row locked by another claimant skips it
and returns none at once instead of blocking on it. -/
theorem claim2_no_double_claim (now : Nat) (store : List AnalysisJob)
    (h1 : store.countP (jobReady now) = 1) (N : Nat) (hN : 1 ≤ N) :
    (runClaims now N store).1.countP (fun r => r.isSome) = 1 ∧
    (∀ j ∈ store, jobReady now j = true →
        claimWithLocks now [j.id] store = (none, store)) := by
  have hlen : (store.filter (jobReady now)).length = 1 := by
    rw [← List.countP_eq_length_filter]; exact h1
  obtain ⟨x, hx⟩ := List.length_eq_one.mp hlen
  constructor
  · obtain ⟨n, rfl⟩ : ∃ n, N = n + 1 := ⟨N - 1, by omega⟩
    have hsel : claimSelect now [] store = some x := by
      unfold claimSelect
      rw [filter_nolock, hx]
      rfl
    have hclaim : claim_analysis_job now store =
        (some (claimUpdate now x),
         store.map (fun r => if r.id = x.id then claimUpdate now r else r)) := by
      unfold claim_analysis_job claimWithLocks
      rw [hsel]
    have hpost : (store.map
        (fun r => if r.id = x.id then claimUpdate now r else r)).countP
          (jobReady now) = 0 := by
      rw [List.countP_map]
      apply List.countP_eq_zero.mpr
      intro a ha hcon
      simp only [Function.comp] at hcon
      by_cases hid : a.id = x.id
      · rw [if_pos hid] at hcon
        simp [jobReady, claimUpdate] at hcon
      · rw [if_neg hid] at hcon
        have hmem : a ∈ store.filter (jobReady now) :=
          List.mem_filter.mpr ⟨ha, hcon⟩
        rw [hx] at hmem
        have hax : a = x := by simpa using hmem
        exact hid (by rw [hax])
    show ((claim_analysis_job now store).1 ::
        (runClaims now n (claim_analysis_job now store).2).1).countP
          (fun r => r.isSome) = 1
    rw [hclaim]
    have hrest := runClaims_all_none now n _ hpost
    simp [List.countP_cons, hrest]
  · intro j hj hready
    have hjx : j = x := by
      have hmem : j ∈ store.filter (jobReady now) :=
        List.mem_filter.mpr ⟨hj, hready⟩
      rw [hx] at hmem
      simpa using hmem
    unfold claimWithLocks
    have hker : store.filter
        (fun k => jobReady now k && !(List.contains [j.id] k.id)) = [] := by
      apply List.filter_eq_nil_iff.mpr
      intro a ha hpred
      simp only [Bool.and_eq_true, Bool.not_eq_true'] at hpred
      obtain ⟨hra, hcont⟩ := hpred
      have hmem : a ∈ store.filter (jobReady now) :=
        List.mem_filter.mpr ⟨ha, hra⟩
      rw [hx] at hmem
      have hax : a = x := by simpa using hmem
      rw [hax, ← hjx] at hcont
      simp at hcont
    rw [(claimSelect_eq_none_iff now [j.id] store).mpr hker]

/-- Witness for `claim2_no_double_claim`: two serialized claimants against
a one-job table; exactly one of the two receives a job. -/
theorem claim2_witness :
    (runClaims 10 2 [job0]).1.countP (fun r => r.isSome) = 1 :=
  (claim2_no_double_claim 10 [job0] (by decide) 2 (by decide)).1

/-- Claim C3 divergence: a fresh job (attempt count 0) is claimed once and
the claim is finalized as a failure; the stored attempt count afterwards is
2, not the pre-claim count plus one. `claim_analysis_job` already
incremented `attempts` and returned the incremented record, and
`handleJobError` adds one more on top of it. -/
theorem claim3_attempts_double_increment :
    (claimThenFail cfg0 10 "boom" [job0]).map AnalysisJob.attempts = [2] ∧
    job0.attempts = 0 := by
  constructor <;> decide

/-- Claim C4 divergence: after a retryable failure below the attempt
maximum, the stored row has `retry_after = NULL` and is already eligible
for the very next claim at the same instant: `handleJobError` never writes
`retry_after`, so no backoff delay is recorded anywhere. -/
theorem claim4_no_backoff_recorded :
    (claimThenFail cfg0 10 "boom" [job0]).map
        (fun j => (j.retry_after, jobReady 10 j, j.status)) =
      [(none, true, JobStatus.pending)] := by
  decide

/-- Claim C6 divergence: with `maxRetries = 3` and a job starting at
attempt count 0, two consecutive retryable failures already leave the job
at `status = failed` (stored attempt count 4), where the claim requires
three failures and `pending` after only two. -/
theorem claim6_failed_after_two_failures :
    (claimThenFail cfg0 30 "e2" (claimThenFail cfg0 20 "e1" [job0])).map
        (fun j => (j.status, j.attempts)) = [(JobStatus.failed, 4)] := by
  decide

theorem handleJobError_row_spec (cfg : Config) (job : AnalysisJob)
    (errMsg : String) (store : List AnalysisJob) (r : AnalysisJob)
    (hr : r ∈ handleJobError cfg job errMsg store) (hid : r.id = job.id) :
    r.status = (if cfg.maxRetries ≤ job.attempts + 1 then JobStatus.failed
      else JobStatus.pending) ∧
    r.attempts = job.attempts + 1 ∧
    r.last_error = some errMsg ∧
    r.started_at = none := by
  simp only [handleJobError] at hr
  obtain ⟨a, ha, hfa⟩ := List.mem_map.mp hr
  by_cases hcase : a.id = job.id
  · rw [if_pos hcase] at hfa
    rw [← hfa]
    exact ⟨rfl, rfl, rfl, rfl⟩
  · rw [if_neg hcase] at hfa
    rw [← hfa] at hid
    exact absurd hid hcase

/-- Claim C5 as amended: a missing provider or an exceeded video duration
raises before any network call, but the finalization treats it like every
other failure: the job row is set to `failed` only when the recomputed
attempt count `job.attempts + 1` has reached `maxRetries`, and otherwise
back to `pending`, to be claimed and retried again — the failure is not
made permanent. -/
theorem claim5_precheck_failure_retried (cfg : Config) (job : AnalysisJob)
    (err : String) (store : List AnalysisJob) (r : AnalysisJob)
    (_hpe : processJobPrecheckError cfg job = some err)
    (hr : r ∈ handleJobError cfg job err store) (hid : r.id = job.id) :
    r.status = (if cfg.maxRetries ≤ job.attempts + 1 then JobStatus.failed
      else JobStatus.pending) ∧
    r.attempts = job.attempts + 1 := by
  have h := handleJobError_row_spec cfg job err store r hr hid
  exact ⟨h.1, h.2.1⟩

/-- Claim C5 counterexample: a claimed video job of duration 400000 ms
against `maxVideoDurationSec = 300` and `maxRetries = 3` trips the
duration pre-check, yet after the worker's failure handling its status is
`pending` — the job is retried, not immediately `failed` as the claim
states. -/
theorem claim5_counterexample :
    (workerFailCycle cfg0 10 [jobV]).map AnalysisJob.status =
        [JobStatus.pending] ∧
    (processJobPrecheckError cfg0 (claimUpdate 10 jobV)).isSome = true := by
  constructor <;> decide

/-- The row `handleJobError` produces for the claimed video job of
`claim5_witness`. -/
def rFailV : AnalysisJob :=
  { jobV with
    status := JobStatus.pending
    attempts := 2
    last_error := some "Video duration exceeds limit"
    started_at := none }

/-- Witness for `claim5_precheck_failure_retried` at the claimed video
job: its finalized row is pending with attempt count 2. -/
theorem claim5_witness :
    rFailV.status = JobStatus.pending ∧ rFailV.attempts = 2 := by
  have h := claim5_precheck_failure_retried cfg0 (claimUpdate 10 jobV)
    "Video duration exceeds limit" [claimUpdate 10 jobV] rFailV
    (by decide) (by decide) (by decide)
  exact ⟨h.1.trans (by decide), h.2.trans (by decide)⟩

/-- Claim C7: the composed prompt is master tier, then media-kind tier, then
(for a given tenant) tenant tier, in that fixed order, adjacent present
tiers separated by exactly one blank line; a tier whose lookup yields
nothing contributes nothing (shown here for a missing master tier and a
missing tenant tier). -/
theorem claim7_prompt_composition (store : List PromptRecord)
    (mt : MediaType) (o : Nat) (m i t : String) (ho : o ≠ 0)
    (hm' : m ≠ "") (hi' : i ≠ "") (ht' : t ≠ "") :
    (promptQuery store PromptType.master none = some m →
        promptQuery store (PromptType.media mt) none = some i →
        promptQuery store (PromptType.media mt) (some o) = some t →
        buildPrompt store mt (some o) = m ++ "\n\n" ++ i ++ "\n\n" ++ t) ∧
    (promptQuery store PromptType.master none = none →
        promptQuery store (PromptType.media mt) none = some i →
        promptQuery store (PromptType.media mt) (some o) = some t →
        buildPrompt store mt (some o) = i ++ "\n\n" ++ t) ∧
    (promptQuery store PromptType.master none = some m →
        promptQuery store (PromptType.media mt) none = some i →
        promptQuery store (PromptType.media mt) (some o) = none →
        buildPrompt store mt (some o) = m ++ "\n\n" ++ i) := by
  refine ⟨?_, ?_, ?_⟩ <;> intro h1 h2 h3 <;>
    simp [buildPrompt, pushContent, h1, h2, h3, hm', hi', ht', ho, joinSep,
      String.append_assoc]

/-- A three-tier prompt store: active master "M", active global image
prompt "I", active image prompt "T" for tenant 42. -/
def promptStore : List PromptRecord :=
  [ { prompt_type := PromptType.master
      organization_id := none
      is_active := true
      prompt_content := "M" },
    { prompt_type := PromptType.media MediaType.image
      organization_id := none
      is_active := true
      prompt_content := "I" },
    { prompt_type := PromptType.media MediaType.image
      organization_id := some 42
      is_active := true
      prompt_content := "T" } ]

/-- Witness for `claim7_prompt_composition`: kind = image, tenant = 42
against `promptStore` composes to "M\n\nI\n\nT". -/
theorem claim7_witness :
    buildPrompt promptStore MediaType.image (some 42) = "M\n\nI\n\nT" := by
  have h := (claim7_prompt_composition promptStore MediaType.image 42
    "M" "I" "T" (by decide) (by decide) (by decide) (by decide)).1
    (by decide) (by decide) (by decide)
  rw [h]
  rfl

theorem countP_upsert_key (tbl : List MediaAnalysisRow)
    (row : MediaAnalysisRow)
    (h : tbl.countP (fun r => rowKey r = rowKey row) ≤ 1) :
    (upsertAnalysis tbl row).countP (fun r => rowKey r = rowKey row) = 1 := by
  unfold upsertAnalysis
  by_cases hany : tbl.any (fun r => rowKey r = rowKey row)
  · rw [if_pos hany, List.countP_map]
    simp only [Function.comp_def]
    have hsame : tbl.countP
        (fun a => decide (rowKey (if rowKey a = rowKey row then row else a) =
          rowKey row)) = tbl.countP (fun r => rowKey r = rowKey row) := by
      apply List.countP_congr
      intro a _
      by_cases hk : rowKey a = rowKey row <;> simp [hk]
    rw [hsame]
    obtain ⟨a, ha, hpa⟩ := List.any_eq_true.mp hany
    have hpos : 0 < tbl.countP (fun r => rowKey r = rowKey row) :=
      List.countP_pos_iff.mpr ⟨a, ha, hpa⟩
    omega
  · rw [if_neg hany]
    rw [List.countP_append]
    have h0 : tbl.countP (fun r => rowKey r = rowKey row) = 0 := by
      apply List.countP_eq_zero.mpr
      intro a ha hpa
      exact hany (List.any_eq_true.mpr ⟨a, ha, hpa⟩)
    simp [h0, List.countP_cons]

theorem mem_upsert_key_eq (tbl : List MediaAnalysisRow)
    (row : MediaAnalysisRow) :
    ∀ r ∈ upsertAnalysis tbl row, rowKey r = rowKey row → r = row := by
  intro r hr hk
  unfold upsertAnalysis at hr
  by_cases hany : tbl.any (fun r => rowKey r = rowKey row)
  · rw [if_pos hany] at hr
    obtain ⟨a, _, hfa⟩ := List.mem_map.mp hr
    by_cases hka : rowKey a = rowKey row
    · rw [if_pos hka] at hfa
      exact hfa.symm
    · rw [if_neg hka] at hfa
      rw [← hfa] at hk
      exact absurd hk hka
  · rw [if_neg hany] at hr
    rcases List.mem_append.mp hr with hmem | hmem
    · exact absurd (List.any_eq_true.mpr ⟨r, hmem, by simp [hk]⟩) hany
    · simpa using hmem

/-- Claim C8: against a table with at most one row for a given
(event id, analysis kind) key, upserting two results with that same key
leaves exactly one row for the key, and that row is the second write. -/
theorem claim8_idempotent_result_upsert (tbl : List MediaAnalysisRow)
    (r1 r2 : MediaAnalysisRow) (hk : rowKey r1 = rowKey r2)
    (h1 : tbl.countP (fun r => rowKey r = rowKey r2) ≤ 1) :
    (upsertAnalysis (upsertAnalysis tbl r1) r2).countP
        (fun r => rowKey r = rowKey r2) = 1 ∧
    ∀ r ∈ upsertAnalysis (upsertAnalysis tbl r1) r2,
      rowKey r = rowKey r2 → r = r2 := by
  have hpred : (fun r => decide (rowKey r = rowKey r2)) =
      (fun r => decide (rowKey r = rowKey r1)) := by
    funext r
    rw [hk]
  have h1' : tbl.countP (fun r => rowKey r = rowKey r1) ≤ 1 := by
    rw [← hpred]
    exact h1
  have hu1 : (upsertAnalysis tbl r1).countP
      (fun r => rowKey r = rowKey r1) = 1 := countP_upsert_key tbl r1 h1'
  have hu1' : (upsertAnalysis tbl r1).countP
      (fun r => rowKey r = rowKey r2) ≤ 1 := by
    rw [hpred, hu1]
  exact ⟨countP_upsert_key _ r2 hu1', mem_upsert_key_eq _ r2⟩

/-- A first stored transcription result for subject "E2". -/
def rowA : MediaAnalysisRow :=
  { message_id := 1
    event_id := "E2"
    media_type := MediaType.audio
    analysis_type := "transcription"
    content := "first"
    provider := "gemini"
    model_used := "g"
    tokens_used := none
    processing_time_ms := 5 }

/-- A second write for the same (subject, analysis kind) key with
different content. -/
def rowB : MediaAnalysisRow :=
  { rowA with content := "second" }

/-- Witness for `claim8_idempotent_result_upsert`: writing `rowA` then
`rowB` into an empty table leaves exactly one row for the key, and the
final table is `[rowB]`. -/
theorem claim8_witness :
    (upsertAnalysis (upsertAnalysis [] rowA) rowB).countP
        (fun r => rowKey r = rowKey rowB) = 1 ∧
    upsertAnalysis (upsertAnalysis [] rowA) rowB = [rowB] :=
  ⟨(claim8_idempotent_result_upsert [] rowA rowB (by decide) (by decide)).1,
   by decide⟩

/-- Claim C9: per-fetch retry behavior of `downloadMedia`: three 404
("not found") responses in a row — the first plus 2 extra attempts —
exhaust the loop and fail; three thrown transport errors likewise (up to 2
additional retries); a success on the third attempt after two 404s or two
transport errors still returns the body; and an exhausted download is
surfaced to the worker as a retryable failure — `handleJobError` puts the
job back to `pending` while the attempt count is below `maxRetries`,
rather than crashing or permanently failing it. -/
theorem claim9_download_retry (resp : Nat → FetchResult) (b : List Nat)
    (cfg : Config) (job : AnalysisJob) (err : String)
    (store : List AnalysisJob) (r : AnalysisJob) :
    ((∀ n, n < 3 → resp n = FetchResult.httpStatus 404) →
        downloadMedia resp = none) ∧
    ((∀ n, n < 3 → resp n = FetchResult.netError) →
        downloadMedia resp = none) ∧
    (resp 0 = FetchResult.netError → resp 1 = FetchResult.netError →
        resp 2 = FetchResult.ok b → downloadMedia resp = some b) ∧
    (resp 0 = FetchResult.httpStatus 404 →
        resp 1 = FetchResult.httpStatus 404 →
        resp 2 = FetchResult.ok b → downloadMedia resp = some b) ∧
    (downloadMedia resp = none → job.attempts + 1 < cfg.maxRetries →
        r ∈ handleJobError cfg job err store → r.id = job.id →
        r.status = JobStatus.pending) := by
  have hrange : List.range 3 = [0, 1, 2] := rfl
  refine ⟨?_, ?_, ?_, ?_, ?_⟩
  · intro h
    have h0 := h 0 (by omega)
    have h1 := h 1 (by omega)
    have h2 := h 2 (by omega)
    simp [downloadMedia, hrange, downloadGo, h0, h1, h2]
  · intro h
    have h0 := h 0 (by omega)
    have h1 := h 1 (by omega)
    have h2 := h 2 (by omega)
    simp [downloadMedia, hrange, downloadGo, h0, h1, h2]
  · intro h0 h1 h2
    simp [downloadMedia, hrange, downloadGo, h0, h1, h2]
  · intro h0 h1 h2
    simp [downloadMedia, hrange, downloadGo, h0, h1, h2]
  · intro _ hlt hr hid
    have h := handleJobError_row_spec cfg job err store r hr hid
    rw [h.1, if_neg (by omega)]

/-- Witness for `claim9_download_retry`: a server that always answers 404
exhausts the loop; one that throws twice then serves the bytes succeeds. -/
theorem claim9_witness :
    downloadMedia (fun _ => FetchResult.httpStatus 404) = none ∧
    downloadMedia
        (fun n => if n < 2 then FetchResult.netError
          else FetchResult.ok [7]) = some [7] :=
  ⟨(claim9_download_retry (fun _ => FetchResult.httpStatus 404) [] cfg0 job0
      "e" [] job0).1 (fun _ _ => rfl),
   (claim9_download_retry
      (fun n => if n < 2 then FetchResult.netError else FetchResult.ok [7])
      [7] cfg0 job0 "e" [] job0).2.2.1 (by decide) (by decide) (by decide)⟩

theorem filter_upsert_type_ne (tbl : List MediaAnalysisRow)
    (row : MediaAnalysisRow) (s : String)
    (hs : (row.analysis_type == s) = false) :
    (upsertAnalysis tbl row).filter (fun r => r.analysis_type == s) =
      tbl.filter (fun r => r.analysis_type == s) := by
  unfold upsertAnalysis
  by_cases hany : tbl.any (fun r => rowKey r = rowKey row)
  · rw [if_pos hany]
    clear hany
    induction tbl with
    | nil => rfl
    | cons a l ih =>
        simp only [List.map_cons]
        by_cases hka : rowKey a = rowKey row
        · have hat : a.analysis_type = row.analysis_type :=
            congrArg Prod.snd hka
          have hpa : (a.analysis_type == s) = false := by rw [hat]; exact hs
          rw [if_pos hka]
          rw [List.filter_cons, List.filter_cons]
          rw [hs, hpa]
          simpa using ih
        · rw [if_neg hka]
          rw [List.filter_cons, List.filter_cons]
          cases hpa : (a.analysis_type == s) <;> simpa [hpa] using ih
  · rw [if_neg hany]
    rw [List.filter_append]
    have hone : List.filter (fun r => r.analysis_type == s) [row] = [] := by
      simp [List.filter, hs]
    rw [hone, List.append_nil]

/-- Claim C10: the stored analysis kind is derived from the media kind —
"transcription" for audio, "description" for image and video — and it is
half of the upsert key, so storing an audio result leaves every
"description" row of the table exactly as it was. -/
theorem claim10_analysis_kind (job : AnalysisJob) (res : AnalysisResult)
    (prov : String) (tbl : List MediaAnalysisRow) :
    (job.media_type = MediaType.audio →
        (resultRowFor job res prov).analysis_type = "transcription" ∧
        (storeResult job res prov tbl).filter
            (fun r => r.analysis_type == "description") =
          tbl.filter (fun r => r.analysis_type == "description")) ∧
    ((job.media_type = MediaType.image ∨ job.media_type = MediaType.video) →
        (resultRowFor job res prov).analysis_type = "description") := by
  constructor
  · intro h
    constructor
    · simp [resultRowFor, analysisTypeFor, h]
    · apply filter_upsert_type_ne
      simp [resultRowFor, analysisTypeFor, h]
  · rintro (h | h) <;> simp [resultRowFor, analysisTypeFor, h]

/-- An image analysis result already stored for subject "E1". -/
def rowDesc : MediaAnalysisRow :=
  { message_id := 7
    event_id := "E1"
    media_type := MediaType.image
    analysis_type := "description"
    content := "a cat"
    provider := "gemini"
    model_used := "g"
    tokens_used := some 12
    processing_time_ms := 0 }

/-- An audio job for the same subject "E1". -/
def jobA : AnalysisJob :=
  { job0 with id := 4, media_type := MediaType.audio }

/-- A provider result to store. -/
def res0 : AnalysisResult :=
  { content := "hello world"
    modelUsed := "g"
    tokensUsed := some 3
    processingTimeMs := 9 }

/-- Witness for `claim10_analysis_kind`: storing the audio result for
subject "E1" derives kind "transcription" and leaves the existing
"description" row untouched. -/
theorem claim10_witness :
    (resultRowFor jobA res0 "gemini").analysis_type = "transcription" ∧
    (storeResult jobA res0 "gemini" [rowDesc]).filter
        (fun r => r.analysis_type == "description") = [rowDesc] := by
  have h := (claim10_analysis_kind jobA res0 "gemini" [rowDesc]).1 rfl
  exact ⟨h.1, h.2.trans (by decide)⟩
